import Mathlib

/-!
# Verification of the Skill_Issue game-analysis application

Shallow embedding of the repository's code and of the spec's analysis core.

The repository's `src/` tree contains only the web frontend (React pages);
the analysis core described by the spec (parser, engine manager, classifier,
orchestrator, aggregator) is not present in `src/`.  Definitions for the
frontend are translated from the JSX source; definitions for the core are
modelled from the spec and say so in their doc comments.
-/

namespace SkillIssue

/-! ## Frontend: month-year helpers (DashboardPage, src/unnamed/part_000)

A calendar month is represented by its absolute month index `m : Int`
(`m = 12 * year + (month - 1)` with `month ∈ 1..12`), so that the JS
`date.setMonth(date.getMonth() - 1)` (with the day pinned to 1 by
`setDate(1)`) is exactly `m - 1`.  `Int.ediv`/`Int.emod` give the floored
division that matches JS calendar arithmetic also for negative years. -/

/-- JS `String(month).padStart(2, '0')`: left-pad a string to length 2
with the character `0`. -/
def padStart2 (s : String) : String :=
  if s.length ≥ 2 then s else if s.length = 1 then "0" ++ s else "00"

/-- `getMonthYearString` from `src/unnamed/part_000` lines 10-15:
`` `${year}-${month}` `` with the month 1-based and zero-padded, applied to
the date whose absolute month index is `m`. -/
def getMonthYearString (m : Int) : String :=
  toString (m.ediv 12) ++ "-" ++ padStart2 (toString (m.emod 12 + 1))

/-- The loop body of `getMonthYearOptions` (lines 25-29): push the current
month string, then step the date back one month, `count` times. -/
def collectMonths : Nat → Int → List String
  | 0, _ => []
  | n + 1, m => getMonthYearString m :: collectMonths n (m - 1)

/-- `getMonthYearOptions` from `src/unnamed/part_000` lines 18-31: the
`count` month strings ending at the current month `current` (absolute month
index), reversed so the oldest comes first. -/
def getMonthYearOptions (count : Nat) (current : Int) : List String :=
  (collectMonths count current).reverse

/-! ## Frontend: the dashboard's analyze handler (src/unnamed/part_000) -/

/-- The JSON body decoded from the `/api/analyze` response.  `ok` is
`response.ok`; `errMsg` models the `data.error` field (`none` for an absent
or empty field, which is falsy in JS, so `data.error || 'Analysis failed'`
becomes `errMsg.getD "Analysis failed"`). -/
structure RespData where
  ok : Bool
  errMsg : Option String
  payload : String
deriving DecidableEq, Repr

/-- An HTTP request submitted by the dashboard: target URL and the
key-value fields of its JSON body. -/
structure AnalyzeRequest where
  url : String
  bodyFields : List (String × String)
deriving DecidableEq, Repr

/-- The component state touched by `handleAnalyze`: the `error`,
`analysisResults` and `analysisLoading` React state hooks. -/
structure DashState where
  error : String
  analysisResults : Option RespData
  analysisLoading : Bool
deriving DecidableEq, Repr

/-- `handleAnalyze` from `src/unnamed/part_000` lines 126-163.  The date
guard compares the two month-year strings with JS `>` (lexicographic on
code units, which Lean's `String` order matches on these ASCII strings);
on failure it sets the error and returns without fetching.  Otherwise it
clears the state, POSTs `{ start_month_year, end_month_year }` to
`/api/analyze`, and applies the response: `response.ok` stores the data,
otherwise the error message is thrown and caught.  Returns the final state
and the list of requests submitted. -/
def handleAnalyze (st : DashState) (startMonthYear endMonthYear : String)
    (response : RespData) : DashState × List AnalyzeRequest :=
  if endMonthYear < startMonthYear then
    ({ st with error := "Start date cannot be after the end date." }, [])
  else
    let st1 : DashState :=
      { st with analysisResults := none, analysisLoading := true, error := "" }
    let req : AnalyzeRequest :=
      { url := "/api/analyze",
        bodyFields := [("start_month_year", startMonthYear),
                       ("end_month_year", endMonthYear)] }
    let st2 : DashState :=
      if response.ok then { st1 with analysisResults := some response }
      else { st1 with error := response.errMsg.getD "Analysis failed" }
    ({ st2 with analysisLoading := false }, [req])

/-! ## Analysis core (modelled from the spec)

The repository's `src/` holds only the frontend; the analysis pipeline of
spec §§3-7 (Move Classifier, Pattern Aggregator, Analysis Orchestrator,
Game Record Parser) has no source under `src/`, so the definitions below
are modelled from the spec's words. -/

/-- The side that made a move. -/
inductive Side where
  | white
  | black
deriving DecidableEq, Repr

/-- Modelled from the spec: move-quality categories of §3
(`Category ∈ {Best, Good, Inaccuracy, Mistake, Blunder, Book/Forced}`). -/
inductive Category where
  | best
  | good
  | inaccuracy
  | mistake
  | blunder
  | bookForced
deriving DecidableEq, Repr

/-- Modelled from the spec (§4.3): normalize a White-perspective
centipawn evaluation to the mover's perspective. -/
def perspective (mover : Side) (e : Int) : Int :=
  match mover with
  | .white => e
  | .black => -e

/-- Modelled from the spec (§4.3):
`loss = max(0, evalBefore_perspective − evalAfter_perspective)` after
normalizing both evaluations to the mover's perspective. -/
def centipawnLoss (evalBefore evalAfter : Int) (mover : Side) : Int :=
  max 0 (perspective mover evalBefore - perspective mover evalAfter)

/-- Modelled from the spec (§4.3): the numeric core of
`Classify(evalBefore, evalAfter, moverSide) → Category` over centipawn
scores.  Fixed thresholds applied in ascending order, first match wins:
`loss < 10 → Best; < 50 → Good; < 100 → Inaccuracy; < 300 → Mistake;
otherwise → Blunder`.  (The Book/Forced override and the mate-score rule
of §4.3 act upstream of this numeric path and on non-centipawn inputs.) -/
def classify (evalBefore evalAfter : Int) (mover : Side) : Category :=
  let loss := centipawnLoss evalBefore evalAfter mover
  if loss < 10 then .best
  else if loss < 50 then .good
  else if loss < 100 then .inaccuracy
  else if loss < 300 then .mistake
  else .blunder

/-- Modelled from the spec (§3): one classified move of a game —
ply index, mover, centipawn loss and category. -/
structure ClassifiedMove where
  ply : Nat
  mover : Side
  loss : Int
  category : Category
deriving DecidableEq, Repr

/-- Modelled from the spec (§3): the ordered classified moves of one
game. -/
structure GameAnalysis where
  gameId : Nat
  moves : List ClassifiedMove
deriving DecidableEq, Repr

/-- Modelled from the spec (§4.5): game-phase boundaries are fixed
ply-count constants (design placeholders per §9). -/
def openingPlyBound : Nat := 20

/-- Modelled from the spec (§4.5): the middlegame/endgame ply boundary
(design placeholder per §9). -/
def middlegamePlyBound : Nat := 60

/-- Modelled from the spec (§4.5): the fixed multiplicative factor by
which a phase bucket's blunder rate must exceed the range-wide average to
be flagged as a "habit" signal. -/
def habitFactor : Nat := 2

/-- Game phase of a ply index, by the fixed ply-count thresholds. -/
def phaseIsOpening (ply : Nat) : Bool := ply < openingPlyBound

/-- Middlegame phase predicate: between the two fixed ply bounds. -/
def phaseIsMiddlegame (ply : Nat) : Bool :=
  openingPlyBound ≤ ply && ply < middlegamePlyBound

/-- Endgame phase predicate: at or past the middlegame/endgame bound. -/
def phaseIsEndgame (ply : Nat) : Bool := middlegamePlyBound ≤ ply

/-- Modelled from the spec (§3, §7): the `RangeReport` — per-category
totals, centipawn-loss distribution data (sum for the mean, sorted list
for percentiles), phase-bucketed move and blunder counts with habit
flags, and the run-level skip and partial markers. -/
structure RangeReport where
  bestCount : Nat
  goodCount : Nat
  inaccuracyCount : Nat
  mistakeCount : Nat
  blunderCount : Nat
  bookForcedCount : Nat
  totalMoves : Nat
  totalLoss : Int
  sortedLosses : List Int
  openingMoves : Nat
  middlegameMoves : Nat
  endgameMoves : Nat
  openingBlunders : Nat
  middlegameBlunders : Nat
  endgameBlunders : Nat
  openingHabit : Bool
  middlegameHabit : Bool
  endgameHabit : Bool
  gamesAnalyzed : Nat
  skippedGames : Nat
  isPartial : Bool
deriving DecidableEq, Repr

/-- Count, across all games, the moves satisfying a predicate. -/
def countMoves (p : ClassifiedMove → Bool) (gs : List GameAnalysis) : Nat :=
  (gs.map (fun g => (g.moves.filter p).length)).sum

/-- All centipawn losses of all moves across the games, in input order. -/
def allLosses (gs : List GameAnalysis) : List Int :=
  (gs.map (fun g => g.moves.map (fun m => m.loss))).flatten

/-- Modelled from the spec (§4.5): the habit predicate — a phase bucket's
blunder rate exceeds `habitFactor` times the range-wide blunder rate,
stated by cross-multiplication to stay in integers. -/
def habitSignal (bucketBlunders bucketMoves totalBlunders totalMoves : Nat) :
    Bool :=
  habitFactor * totalBlunders * bucketMoves < bucketBlunders * totalMoves

/-- Modelled from the spec (§4.5):
`Aggregate(list of GameAnalysis) → RangeReport`, a pure function computing
total moves per category, centipawn-loss sum and sorted distribution, and
phase-bucketed counts and habit signals.  The run-level `skippedGames` and
`isPartial` markers are filled in by the orchestrator. -/
def Aggregate (gs : List GameAnalysis) : RangeReport :=
  let total := (gs.map (fun g => g.moves.length)).sum
  let blunders := countMoves (fun m => m.category == .blunder) gs
  let oM := countMoves (fun m => phaseIsOpening m.ply) gs
  let mM := countMoves (fun m => phaseIsMiddlegame m.ply) gs
  let eM := countMoves (fun m => phaseIsEndgame m.ply) gs
  let oB := countMoves (fun m => phaseIsOpening m.ply && m.category == .blunder) gs
  let mB := countMoves (fun m => phaseIsMiddlegame m.ply && m.category == .blunder) gs
  let eB := countMoves (fun m => phaseIsEndgame m.ply && m.category == .blunder) gs
  { bestCount := countMoves (fun m => m.category == .best) gs
    goodCount := countMoves (fun m => m.category == .good) gs
    inaccuracyCount := countMoves (fun m => m.category == .inaccuracy) gs
    mistakeCount := countMoves (fun m => m.category == .mistake) gs
    blunderCount := blunders
    bookForcedCount := countMoves (fun m => m.category == .bookForced) gs
    totalMoves := total
    totalLoss := (allLosses gs).sum
    sortedLosses := (allLosses gs).mergeSort
    openingMoves := oM
    middlegameMoves := mM
    endgameMoves := eM
    openingBlunders := oB
    middlegameBlunders := mB
    endgameBlunders := eB
    openingHabit := habitSignal oB oM blunders total
    middlegameHabit := habitSignal mB mM blunders total
    endgameHabit := habitSignal eB eM blunders total
    gamesAnalyzed := gs.length
    skippedGames := 0
    isPartial := false }

/-! ## Analysis Orchestrator (modelled from the spec, §4.4, §5, §7) -/

/-- A raw game transcript as delivered by the external game source. -/
structure RawGame where
  transcript : String
deriving DecidableEq, Repr

/-- Modelled from the spec (§3): a parsed `GameRecord` as the orchestrator
sees it — an id and the validated move list. -/
structure GameRecord where
  id : Nat
  moves : List String
deriving DecidableEq, Repr

/-- The structured error object `{error: string}` returned to the caller
on a run-fatal failure (§6, §7). -/
structure ErrorObj where
  error : String
deriving DecidableEq, Repr

/-- Modelled from the spec (§4.4, §5): the Evaluating phase.  Time is an
abstract wall clock: evaluating game `g` takes `cost g` time units and the
per-run deadline is `deadline`.  Games are submitted in order; a new
evaluation is submitted only while the deadline has not yet elapsed
(cancellation is signaled once `deadline ≤ elapsed`, after which no new
evaluations are submitted); an evaluation that would finish past the
deadline is abandoned (no partial Evaluation is trusted) and, the deadline
having elapsed mid-evaluation, nothing further is submitted.  Returns the
analyses of the games fully evaluated before the deadline together with
the trace of submission times. -/
def evalLoop (cost : GameRecord → Nat) (evalGame : GameRecord → GameAnalysis)
    (deadline : Nat) : Nat → List GameRecord → List GameAnalysis × List Nat
  | _, [] => ([], [])
  | elapsed, g :: rest =>
    if deadline ≤ elapsed then ([], [])
    else
      let finish := elapsed + cost g
      if finish ≤ deadline then
        let r := evalLoop cost evalGame deadline finish rest
        (evalGame g :: r.1, elapsed :: r.2)
      else ([], [elapsed])

/-- Modelled from the spec (§4.4, §7): one analysis run,
`Pending → Fetching → Evaluating → Aggregating → Complete | Failed`,
abstracted over the collaborators: `parse` (Game Record Parser, `none` on
`InvalidGameRecord`), `evalGame` (engine evaluation and classification of
one game), `cost` and `deadline` (the wall-clock model of `evalLoop`), and
the Fetching outcome `fetched` (`Except.error` when the source is
unreachable).  A failed fetch aborts the run with a structured error;
games that fail parsing are skipped and counted; the games fully evaluated
before the deadline are aggregated, and the report is marked `isPartial`
exactly when some parsed game was not fully evaluated. -/
def runAnalysis (parse : RawGame → Option GameRecord)
    (evalGame : GameRecord → GameAnalysis) (cost : GameRecord → Nat)
    (deadline : Nat) (fetched : Except String (List RawGame)) :
    Except ErrorObj RangeReport :=
  match fetched with
  | .error e => .error { error := e }
  | .ok raws =>
    let parsed := raws.filterMap parse
    let skipped := (raws.filter (fun r => (parse r).isNone)).length
    let completed := (evalLoop cost evalGame deadline 0 parsed).1
    .ok { Aggregate completed with
            skippedGames := skipped
            isPartial := decide (completed.length < parsed.length) }

/-! ## Game Record Parser (modelled from the spec, §4.2, §8)

The concrete rules of chess are external to the spec's contract, so the
parser is stated over an abstract chess model: a starting position, the
legal moves of a position, and deterministic move application. -/

/-- Modelled from the spec (§3, §4.2): an abstract chess model — the
standard starting position, the legal moves of each position, and
deterministic application of a move to a position. -/
structure ChessModel (Pos Move : Type) where
  start : Pos
  legalMoves : Pos → List Move
  applyMove : Pos → Move → Pos

variable {Pos Move : Type}

/-- Modelled from the spec (§4.2): validate a move list by replaying it
from position `p`; a single illegal move invalidates the whole game
(`none` = `InvalidGameRecord`), otherwise produce the ordered `Position`
sequence (the position before each move, then the final position). -/
def parseFrom [DecidableEq Move] (M : ChessModel Pos Move) :
    Pos → List Move → Option (List Pos)
  | p, [] => some [p]
  | p, m :: ms =>
    if m ∈ M.legalMoves p then
      (parseFrom M (M.applyMove p m) ms).map (p :: ·)
    else none

/-- Modelled from the spec (§4.2): `Parse(rawTranscript)` — replay the
transcript from the standard starting position. -/
def Parse [DecidableEq Move] (M : ChessModel Pos Move)
    (transcript : List Move) : Option (List Pos) :=
  parseFrom M M.start transcript

/-- Modelled from the spec (§8): replay a `Position` sequence,
reconstructing for each consecutive pair the legal move that produced the
transition (`none` when no legal move explains a transition). -/
def replaySeq [DecidableEq Pos] (M : ChessModel Pos Move) :
    List Pos → Option (List Move)
  | [] => some []
  | [_] => some []
  | p :: p' :: rest =>
    match (M.legalMoves p).find? (fun m => M.applyMove p m = p') with
    | none => none
    | some m => (replaySeq M (p' :: rest)).map (m :: ·)

/-! ## Theorems -/

/-- C2: `classify` is a total function on (evalBefore, evalAfter,
moverSide); with `loss = max(0, before − after)` in the mover's
perspective it returns Best iff loss < 10, Good iff 10 ≤ loss < 50,
Inaccuracy iff 50 ≤ loss < 100, Mistake iff 100 ≤ loss < 300, and Blunder
iff 300 ≤ loss — so the categories partition the inputs and boundary
losses of exactly 10, 50, 100, 300 land in the higher-loss bucket; and a
move from +20 to −310 centipawns (mover's perspective) is a Blunder while
+20 to +5 is Good. -/
theorem classify_total_thresholds :
    ∀ (evalBefore evalAfter : Int) (mover : Side),
      (classify evalBefore evalAfter mover = .best ↔
        centipawnLoss evalBefore evalAfter mover < 10) ∧
      (classify evalBefore evalAfter mover = .good ↔
        10 ≤ centipawnLoss evalBefore evalAfter mover ∧
        centipawnLoss evalBefore evalAfter mover < 50) ∧
      (classify evalBefore evalAfter mover = .inaccuracy ↔
        50 ≤ centipawnLoss evalBefore evalAfter mover ∧
        centipawnLoss evalBefore evalAfter mover < 100) ∧
      (classify evalBefore evalAfter mover = .mistake ↔
        100 ≤ centipawnLoss evalBefore evalAfter mover ∧
        centipawnLoss evalBefore evalAfter mover < 300) ∧
      (classify evalBefore evalAfter mover = .blunder ↔
        300 ≤ centipawnLoss evalBefore evalAfter mover) ∧
      classify 20 (-310) .white = .blunder ∧
      classify 20 5 .white = .good := by
  intro b a s
  refine ⟨?_, ?_, ?_, ?_, ?_, by decide, by decide⟩ <;>
    · simp only [classify]
      split_ifs with h1 h2 h3 h4 <;> simp_all <;> omega

/-- The list produced by `getMonthYearOptions` is, element by element, the
month string of `current + 1 - count + j` at index `j`. -/
theorem getMonthYearOptions_eq_map (count : Nat) (current : Int) :
    getMonthYearOptions count current =
      (List.range count).map
        (fun j : Nat => getMonthYearString (current + 1 - count + (j : Int))) := by
  induction count generalizing current with
  | zero => simp [getMonthYearOptions, collectMonths]
  | succ n ih =>
    have hfun : (fun j : Nat => getMonthYearString (current + 1 - (n + 1 : ℕ) + j))
        = fun j : Nat => getMonthYearString ((current - 1) + 1 - n + j) := by
      funext j
      congr 1
      push_cast
      ring
    simp only [getMonthYearOptions, collectMonths, List.reverse_cons]
    rw [show (collectMonths n (current - 1)).reverse
          = getMonthYearOptions n (current - 1) from rfl, ih,
        List.range_succ, List.map_append, hfun]
    congr 1
    simp only [List.map_cons, List.map_nil]
    congr 2
    ring

/-- Every month string has the shape `year ++ "-" ++ month` with the month
part a zero-padded two-character numeral between 01 and 12. -/
theorem getMonthYearString_form (m : Int) :
    ∃ y mo : Int, 1 ≤ mo ∧ mo ≤ 12 ∧
      getMonthYearString m = toString y ++ "-" ++ padStart2 (toString mo) ∧
      (padStart2 (toString mo)).length = 2 := by
  have h0 : 0 ≤ m.emod 12 := Int.emod_nonneg m (by norm_num)
  have h12 : m.emod 12 < 12 := Int.emod_lt_of_pos m (by norm_num)
  refine ⟨m.ediv 12, m.emod 12 + 1, by omega, by omega, rfl, ?_⟩
  have key : ∀ r : Int, 0 ≤ r → r < 12 →
      (padStart2 (toString (r + 1))).length = 2 := by
    intro r hr1 hr2
    interval_cases r <;> decide
  exact key _ h0 h12

/-- C9: `getMonthYearOptions count current` is a list of exactly `count`
strings, each of the form `year-month` with a zero-padded two-digit month,
in chronological order oldest first with consecutive entries one calendar
month apart (entry `j` is the month `current + 1 - count + j`), and when
nonempty its last entry is the current month. -/
theorem getMonthYearOptions_spec (count : Nat) (current : Int) :
    getMonthYearOptions count current =
      (List.range count).map
        (fun j : Nat => getMonthYearString (current + 1 - count + (j : Int))) ∧
    (getMonthYearOptions count current).length = count ∧
    (∀ s ∈ getMonthYearOptions count current, ∃ y mo : Int,
      1 ≤ mo ∧ mo ≤ 12 ∧
      s = toString y ++ "-" ++ padStart2 (toString mo) ∧
      (padStart2 (toString mo)).length = 2) ∧
    (getMonthYearOptions count current).getLast? =
      (if count = 0 then none else some (getMonthYearString current)) := by
  have heq := getMonthYearOptions_eq_map count current
  refine ⟨heq, ?_, ?_, ?_⟩
  · rw [heq]; simp
  · intro s hs
    rw [heq] at hs
    obtain ⟨j, _, rfl⟩ := List.mem_map.mp hs
    exact getMonthYearString_form _
  · rcases count with _ | n
    · simp [getMonthYearOptions, collectMonths]
    · rw [heq, List.range_succ, List.map_append]
      simp only [List.map_cons, List.map_nil, List.getLast?_append]
      have : current + 1 - (n + 1 : ℕ) + (n : ℕ) = current := by
        push_cast; ring
      simp [this]

/-- C9 witness: at `count = 3` and current month index 24300
(January 2025) the options list is three strings, `"2024-12"` is among
them and has the stated year-month shape, and the last entry is the
current month. -/
theorem getMonthYearOptions_spec_witness :
    (∃ y mo : Int, 1 ≤ mo ∧ mo ≤ 12 ∧
      "2024-12" = toString y ++ "-" ++ padStart2 (toString mo) ∧
      (padStart2 (toString mo)).length = 2) ∧
    (getMonthYearOptions 3 24300).getLast? =
      some (getMonthYearString 24300) :=
  ⟨(getMonthYearOptions_spec 3 24300).2.2.1 "2024-12" (by decide),
   by rw [(getMonthYearOptions_spec 3 24300).2.2.2]; decide⟩

/-- The requests `handleAnalyze` submits: none when the date guard fires,
otherwise the single POST of the two month-year fields to
`/api/analyze`. -/
theorem handleAnalyze_requests (st : DashState) (startMY endMY : String)
    (resp : RespData) :
    (handleAnalyze st startMY endMY resp).2 =
      if endMY < startMY then []
      else [⟨"/api/analyze", [("start_month_year", startMY),
                              ("end_month_year", endMY)]⟩] := by
  simp only [handleAnalyze]
  split_ifs <;> rfl

/-- The month range 2024-01..2024-06 is in lexicographic order. -/
theorem jan_lt_jun_2024 : "2024-01" < "2024-06" := by
  rw [String.lt_iff_toList_lt]
  decide

/-- C1 counterexample: a concrete invocation of `handleAnalyze` (empty
initial state, range 2024-01..2024-06, successful response) submits to
`/api/analyze` a body holding only the two month-year fields — no
`linked_username` field is present. -/
theorem handleAnalyze_body_missing_linked_username :
    (handleAnalyze ⟨"", none, false⟩ "2024-01" "2024-06"
        ⟨true, none, "report"⟩).2 =
      [⟨"/api/analyze", [("start_month_year", "2024-01"),
                         ("end_month_year", "2024-06")]⟩] ∧
    "linked_username" ∉
      ([("start_month_year", "2024-01"),
        ("end_month_year", "2024-06")] : List (String × String)).map
        Prod.fst := by
  constructor
  · rw [handleAnalyze_requests, if_neg (asymm jan_lt_jun_2024)]
  · decide

/-- C1 amended: every request that any invocation of the dashboard's
`handleAnalyze` submits to the core's boundary targets `/api/analyze` and
its body holds exactly the two fields `start_month_year` and
`end_month_year`; the linked username is not in the body (it travels via
the session credentials). -/
theorem handleAnalyze_body_fields (st : DashState)
    (startMY endMY : String) (resp : RespData) :
    ∀ rq ∈ (handleAnalyze st startMY endMY resp).2,
      rq.url = "/api/analyze" ∧
      rq.bodyFields.map Prod.fst = ["start_month_year", "end_month_year"] := by
  intro rq hrq
  rw [handleAnalyze_requests] at hrq
  split_ifs at hrq with h
  · simp at hrq
  · rw [List.mem_singleton] at hrq
    subst hrq
    exact ⟨rfl, rfl⟩

/-- C1 amended, witness: the request submitted by the concrete invocation
of the counterexample carries exactly the two month-year body fields. -/
theorem handleAnalyze_body_fields_witness :
    (AnalyzeRequest.mk "/api/analyze"
        [("start_month_year", "2024-01"), ("end_month_year", "2024-06")]).url
      = "/api/analyze" ∧
    (AnalyzeRequest.mk "/api/analyze"
        [("start_month_year", "2024-01"),
         ("end_month_year", "2024-06")]).bodyFields.map Prod.fst
      = ["start_month_year", "end_month_year"] :=
  handleAnalyze_body_fields ⟨"", none, false⟩ "2024-01" "2024-06"
    ⟨true, none, "report"⟩
    (AnalyzeRequest.mk "/api/analyze"
      [("start_month_year", "2024-01"), ("end_month_year", "2024-06")])
    (by rw [handleAnalyze_requests, if_neg (asymm jan_lt_jun_2024)]
        exact List.mem_singleton.mpr rfl)

/-- C10: when `startMonthYear` is lexicographically greater than
`endMonthYear`, `handleAnalyze` submits no request, leaves
`analysisResults` and `analysisLoading` unchanged (so null stays null and
false stays false) and only sets the error message; a request is submitted
(exactly one) precisely when the guard does not fire. -/
theorem handleAnalyze_date_guard (st : DashState)
    (startMY endMY : String) (resp : RespData) :
    (endMY < startMY →
      (handleAnalyze st startMY endMY resp).2 = [] ∧
      (handleAnalyze st startMY endMY resp).1.analysisResults
        = st.analysisResults ∧
      (handleAnalyze st startMY endMY resp).1.analysisLoading
        = st.analysisLoading ∧
      (handleAnalyze st startMY endMY resp).1.error
        = "Start date cannot be after the end date.") ∧
    (¬ endMY < startMY →
      ∃ rq, (handleAnalyze st startMY endMY resp).2 = [rq]) := by
  constructor <;> intro h <;> simp [handleAnalyze, h]

/-- C10 witness: invoking `handleAnalyze` from the initial state with
start 2024-06 after end 2024-01 sends nothing, keeps `analysisResults`
null and `analysisLoading` false, and sets the error; with the range in
order a single request is submitted. -/
theorem handleAnalyze_date_guard_witness :
    ((handleAnalyze ⟨"", none, false⟩ "2024-06" "2024-01"
        ⟨true, none, "report"⟩).2 = [] ∧
      (handleAnalyze ⟨"", none, false⟩ "2024-06" "2024-01"
        ⟨true, none, "report"⟩).1.analysisResults = none ∧
      (handleAnalyze ⟨"", none, false⟩ "2024-06" "2024-01"
        ⟨true, none, "report"⟩).1.analysisLoading = false ∧
      (handleAnalyze ⟨"", none, false⟩ "2024-06" "2024-01"
        ⟨true, none, "report"⟩).1.error
        = "Start date cannot be after the end date.") ∧
    (∃ rq, (handleAnalyze ⟨"", none, false⟩ "2024-01" "2024-06"
        ⟨true, none, "report"⟩).2 = [rq]) :=
  ⟨(handleAnalyze_date_guard ⟨"", none, false⟩ "2024-06" "2024-01"
      ⟨true, none, "report"⟩).1 jan_lt_jun_2024,
   (handleAnalyze_date_guard ⟨"", none, false⟩ "2024-01" "2024-06"
      ⟨true, none, "report"⟩).2 (asymm jan_lt_jun_2024)⟩

/-- C4: `Aggregate` is a pure function of its list of `GameAnalysis`
inputs and is order-independent over games: permuted input lists (the same
multiset of `GameAnalysis`) yield identical `RangeReport`s. -/
theorem Aggregate_perm_invariant (l₁ l₂ : List GameAnalysis)
    (h : l₁.Perm l₂) : Aggregate l₁ = Aggregate l₂ := by
  have hc : ∀ p : ClassifiedMove → Bool,
      countMoves p l₁ = countMoves p l₂ :=
    fun p => List.Perm.sum_eq (h.map _)
  have hlen : (l₁.map fun g => g.moves.length).sum
      = (l₂.map fun g => g.moves.length).sum :=
    List.Perm.sum_eq (h.map _)
  have hj : (allLosses l₁).Perm (allLosses l₂) := (h.map _).flatten
  have hsort : (allLosses l₁).mergeSort = (allLosses l₂).mergeSort :=
    List.eq_of_perm_of_sorted
      (((List.mergeSort_perm _ _).trans hj).trans
        (List.mergeSort_perm _ _).symm)
      (List.sorted_mergeSort' _) (List.sorted_mergeSort' _)
  simp only [Aggregate]
  simp only [hc, hlen, hj.sum_eq, hsort, h.length_eq]

/-- C4 witness: swapping the two games of a concrete two-game list leaves
the aggregated report unchanged. -/
theorem Aggregate_perm_invariant_witness :
    Aggregate [⟨1, [⟨0, .white, 15, .good⟩]⟩, ⟨2, [⟨1, .black, 400, .blunder⟩]⟩]
      = Aggregate
        [⟨2, [⟨1, .black, 400, .blunder⟩]⟩, ⟨1, [⟨0, .white, 15, .good⟩]⟩] :=
  Aggregate_perm_invariant _ _ (List.Perm.swap _ _ _)

/-- When the total evaluation cost fits strictly below the deadline, every
game is fully evaluated, in order. -/
theorem evalLoop_all (cost : GameRecord → Nat)
    (evalGame : GameRecord → GameAnalysis) (deadline : Nat) :
    ∀ (gs : List GameRecord) (elapsed : Nat),
      elapsed + (gs.map cost).sum < deadline →
      (evalLoop cost evalGame deadline elapsed gs).1 = gs.map evalGame := by
  intro gs
  induction gs with
  | nil => intro elapsed _; rfl
  | cons g rest ih =>
    intro elapsed h
    simp only [List.map_cons, List.sum_cons] at h
    rw [evalLoop, if_neg (by omega : ¬ deadline ≤ elapsed),
        if_pos (by omega : elapsed + cost g ≤ deadline)]
    simp only [List.map_cons]
    rw [ih (elapsed + cost g) (by omega)]

/-- The evaluation loop never completes more games than it was given. -/
theorem evalLoop_length_le (cost : GameRecord → Nat)
    (evalGame : GameRecord → GameAnalysis) (deadline : Nat) :
    ∀ (gs : List GameRecord) (elapsed : Nat),
      ((evalLoop cost evalGame deadline elapsed gs).1).length ≤ gs.length := by
  intro gs
  induction gs with
  | nil => intro elapsed; simp [evalLoop]
  | cons g rest ih =>
    intro elapsed
    rw [evalLoop]
    split_ifs with hc
    · simp
    · dsimp only
      split_ifs with hf
      · simpa using ih (elapsed + cost g)
      · simp

/-- Skipped plus successfully parsed games account for every fetched
game. -/
theorem parsed_skipped_account (parse : RawGame → Option GameRecord)
    (raws : List RawGame) :
    (raws.filterMap parse).length
      + (raws.filter (fun r => (parse r).isNone)).length = raws.length := by
  induction raws with
  | nil => rfl
  | cons r rest ih =>
    cases hp : parse r <;>
      simp [List.filterMap_cons, List.filter_cons, hp] <;> omega

/-- C5: a run for which the external source returns zero games succeeds
and yields the `RangeReport` with every count zero and `isPartial =
false`. -/
theorem run_zero_games (parse : RawGame → Option GameRecord)
    (evalGame : GameRecord → GameAnalysis) (cost : GameRecord → Nat)
    (deadline : Nat) :
    runAnalysis parse evalGame cost deadline (.ok []) =
      .ok { bestCount := 0, goodCount := 0, inaccuracyCount := 0
            mistakeCount := 0, blunderCount := 0, bookForcedCount := 0
            totalMoves := 0, totalLoss := 0, sortedLosses := []
            openingMoves := 0, middlegameMoves := 0, endgameMoves := 0
            openingBlunders := 0, middlegameBlunders := 0, endgameBlunders := 0
            openingHabit := false, middlegameHabit := false, endgameHabit := false
            gamesAnalyzed := 0, skippedGames := 0, isPartial := false } := by
  simp [runAnalysis, Aggregate, countMoves, allLosses, habitSignal, evalLoop]

/-- C6: in a run over three fetched games whose middle game fails parsing
(`InvalidGameRecord`), the run does not fail: it returns the report
aggregating exactly the two valid games, with a skipped-game count of 1
and `isPartial = false`. -/
theorem run_skips_failed_parse (parse : RawGame → Option GameRecord)
    (evalGame : GameRecord → GameAnalysis) (cost : GameRecord → Nat)
    (deadline : Nat) (r1 r2 r3 : RawGame) (g1 g3 : GameRecord)
    (h1 : parse r1 = some g1) (h2 : parse r2 = none)
    (h3 : parse r3 = some g3) (hfit : cost g1 + cost g3 < deadline) :
    runAnalysis parse evalGame cost deadline (.ok [r1, r2, r3]) =
      .ok { Aggregate [evalGame g1, evalGame g3] with
              skippedGames := 1, isPartial := false } := by
  have hloop : (evalLoop cost evalGame deadline 0 [g1, g3]).1
      = [evalGame g1, evalGame g3] := by
    simpa using evalLoop_all cost evalGame deadline [g1, g3] 0 (by simp; omega)
  simp only [runAnalysis, List.filterMap_cons, h1, h2, h3, List.filterMap_nil,
    List.filter_cons, List.filter_nil, Option.isNone_some, Option.isNone_none,
    hloop]
  rfl

/-- C6 witness: a concrete run over three games, the middle one
unparsable, yields the aggregate of the two valid games with one skip. -/
theorem run_skips_failed_parse_witness :
    runAnalysis
        (fun r => if r.transcript.length = 0 then none
                  else some ⟨r.transcript.length, []⟩)
        (fun g => ⟨g.id, []⟩) (fun _ => 1) 3
        (.ok [⟨"aa"⟩, ⟨""⟩, ⟨"c"⟩]) =
      .ok { Aggregate [⟨2, []⟩, ⟨1, []⟩] with
              skippedGames := 1, isPartial := false } :=
  run_skips_failed_parse _ _ _ 3 ⟨"aa"⟩ ⟨""⟩ ⟨"c"⟩ ⟨2, []⟩ ⟨1, []⟩
    (by decide) (by decide) (by decide) (by decide)

/-- C3: every analysis run returns exactly one of the two caller-visible
shapes — on a source failure the single structured error object, otherwise
a `RangeReport` whose `skippedGames` counts the parse-skipped games and
which either accounts for every fetched game (analyzed plus skipped) or is
explicitly marked `isPartial`: no silently incomplete report. -/
theorem run_result_shape (parse : RawGame → Option GameRecord)
    (evalGame : GameRecord → GameAnalysis) (cost : GameRecord → Nat)
    (deadline : Nat) (fetched : Except String (List RawGame)) :
    (∀ e, fetched = .error e →
      runAnalysis parse evalGame cost deadline fetched = .error ⟨e⟩) ∧
    (∀ raws, fetched = .ok raws → ∃ rep,
      runAnalysis parse evalGame cost deadline fetched = .ok rep ∧
      rep.skippedGames
        = (raws.filter (fun r => (parse r).isNone)).length ∧
      (rep.gamesAnalyzed + rep.skippedGames = raws.length ∨
        rep.isPartial = true)) := by
  constructor
  · intro e he
    subst he
    rfl
  · intro raws hr
    subst hr
    refine ⟨_, rfl, rfl, ?_⟩
    by_cases hlt : ((evalLoop cost evalGame deadline 0
        (raws.filterMap parse)).1).length < (raws.filterMap parse).length
    · right
      simp only [Aggregate]
      simpa using hlt
    · left
      have hle := evalLoop_length_le cost evalGame deadline
        (raws.filterMap parse) 0
      have hacc := parsed_skipped_account parse raws
      simp only [Aggregate]
      simp only [not_lt] at hlt
      omega

/-- C3 witness: a failed fetch yields the structured error object, and a
successful one-game fetch yields a report accounting for the game. -/
theorem run_result_shape_witness :
    runAnalysis (fun r => some ⟨r.transcript.length, []⟩)
        (fun g => ⟨g.id, []⟩) (fun _ => 1) 3 (.error "SourceUnreachable")
      = .error ⟨"SourceUnreachable"⟩ ∧
    (∃ rep, runAnalysis (fun r => some ⟨r.transcript.length, []⟩)
        (fun g => ⟨g.id, []⟩) (fun _ => 1) 3 (.ok [⟨"a"⟩]) = .ok rep ∧
      rep.skippedGames
        = (([⟨"a"⟩] : List RawGame).filter
            (fun r => ((fun r : RawGame =>
              some (⟨r.transcript.length, []⟩ : GameRecord)) r).isNone)).length ∧
      (rep.gamesAnalyzed + rep.skippedGames = 1 ∨ rep.isPartial = true)) :=
  ⟨(run_result_shape (fun r => some ⟨r.transcript.length, []⟩)
      (fun g => ⟨g.id, []⟩) (fun _ => 1) 3 (.error "SourceUnreachable")).1
      "SourceUnreachable" rfl,
   (run_result_shape (fun r => some ⟨r.transcript.length, []⟩)
      (fun g => ⟨g.id, []⟩) (fun _ => 1) 3 (.ok [⟨"a"⟩])).2 [⟨"a"⟩] rfl⟩

/-- Every submission the evaluation loop makes happens strictly before
the deadline: once cancellation is signaled, no new evaluation is ever
submitted. -/
theorem evalLoop_submissions_before_deadline (cost : GameRecord → Nat)
    (evalGame : GameRecord → GameAnalysis) (deadline : Nat) :
    ∀ (gs : List GameRecord) (elapsed : Nat),
      ∀ t ∈ (evalLoop cost evalGame deadline elapsed gs).2, t < deadline := by
  intro gs
  induction gs with
  | nil => intro elapsed t ht; simp [evalLoop] at ht
  | cons g rest ih =>
    intro elapsed t ht
    rw [evalLoop] at ht
    split_ifs at ht with hc
    · simp at ht
    · dsimp only at ht
      split_ifs at ht with hf
      · simp only [List.mem_cons] at ht
        rcases ht with rfl | ht
        · omega
        · exact ih (elapsed + cost g) t ht
      · simp only [List.mem_singleton] at ht
        subst ht
        omega

/-- The evaluation loop completes exactly a prefix of the submitted games:
the games of the prefix all finish within the deadline, and when the
prefix is proper the next game could not have been completed — either the
deadline had already elapsed at its submission point or its evaluation
would have finished past the deadline. -/
theorem evalLoop_completes_prefix (cost : GameRecord → Nat)
    (evalGame : GameRecord → GameAnalysis) (deadline : Nat) :
    ∀ (gs : List GameRecord) (elapsed : Nat), elapsed ≤ deadline →
      ∃ k, k ≤ gs.length ∧
        (evalLoop cost evalGame deadline elapsed gs).1
          = (gs.take k).map evalGame ∧
        elapsed + ((gs.take k).map cost).sum ≤ deadline ∧
        (k < gs.length →
          deadline ≤ elapsed + ((gs.take k).map cost).sum ∨
          deadline < elapsed + ((gs.take (k + 1)).map cost).sum) := by
  intro gs
  induction gs with
  | nil =>
    intro elapsed he
    exact ⟨0, by simp, rfl, by simpa, by simp⟩
  | cons g rest ih =>
    intro elapsed he
    by_cases hc : deadline ≤ elapsed
    · refine ⟨0, by simp, ?_, by simpa, fun _ => ?_⟩
      · rw [evalLoop, if_pos hc]
        rfl
      · left
        simpa
    · by_cases hf : elapsed + cost g ≤ deadline
      · obtain ⟨k, hk1, hk2, hk3, hk4⟩ := ih (elapsed + cost g) hf
        refine ⟨k + 1, by simpa using hk1, ?_, ?_, ?_⟩
        · rw [evalLoop, if_neg hc]
          dsimp only
          rw [if_pos hf]
          simp only [List.take_succ_cons, List.map_cons]
          rw [hk2]
        · simp only [List.take_succ_cons, List.map_cons, List.sum_cons]
          omega
        · intro hlt
          simp only [List.length_cons, Nat.add_lt_add_iff_right] at hlt
          rcases hk4 hlt with h | h
          · left
            simp only [List.take_succ_cons, List.map_cons, List.sum_cons]
            omega
          · right
            simp only [List.take_succ_cons, List.map_cons, List.sum_cons]
            omega
      · refine ⟨0, by simp, ?_, by simpa using he, fun _ => ?_⟩
        · rw [evalLoop, if_neg hc]
          dsimp only
          rw [if_neg hf]
          rfl
        · right
          simp only [List.take_succ_cons, List.take_zero, List.map_cons,
            List.map_nil, List.sum_cons, List.sum_nil]
          omega

/-- C7: when the per-run deadline elapses mid-evaluation (some parsed game
was not fully evaluated), the run still completes with a report — never a
failure — marked `isPartial = true`; no evaluation is submitted once the
deadline has elapsed, and the report aggregates exactly a prefix of fully
evaluated games whose total evaluation time fits within the deadline,
maximal in that the next game could not have been completed before the
deadline. -/
theorem run_deadline_partial (parse : RawGame → Option GameRecord)
    (evalGame : GameRecord → GameAnalysis) (cost : GameRecord → Nat)
    (deadline : Nat) (raws : List RawGame)
    (hmid : ((evalLoop cost evalGame deadline 0 (raws.filterMap parse)).1).length
        < (raws.filterMap parse).length) :
    (runAnalysis parse evalGame cost deadline (.ok raws) =
      .ok { Aggregate (evalLoop cost evalGame deadline 0
              (raws.filterMap parse)).1 with
              skippedGames :=
                (raws.filter (fun r => (parse r).isNone)).length
              isPartial := true }) ∧
    (∀ t ∈ (evalLoop cost evalGame deadline 0 (raws.filterMap parse)).2,
      t < deadline) ∧
    (∃ k, k < (raws.filterMap parse).length ∧
      (evalLoop cost evalGame deadline 0 (raws.filterMap parse)).1
        = ((raws.filterMap parse).take k).map evalGame ∧
      (((raws.filterMap parse).take k).map cost).sum ≤ deadline ∧
      (deadline ≤ (((raws.filterMap parse).take k).map cost).sum ∨
        deadline < (((raws.filterMap parse).take (k + 1)).map cost).sum)) := by
  refine ⟨?_, evalLoop_submissions_before_deadline cost evalGame deadline _ 0, ?_⟩
  · simp only [runAnalysis]
    congr 2
    simpa using hmid
  · obtain ⟨k, hk1, hk2, hk3, hk4⟩ :=
      evalLoop_completes_prefix cost evalGame deadline
        (raws.filterMap parse) 0 (Nat.zero_le _)
    have hklt : k < (raws.filterMap parse).length := by
      rcases Nat.lt_or_ge k (raws.filterMap parse).length with h | h
      · exact h
      · exfalso
        rw [hk2] at hmid
        have : (raws.filterMap parse).take k = raws.filterMap parse :=
          List.take_of_length_le h
        rw [this] at hmid
        simp at hmid
    refine ⟨k, hklt, hk2, by simpa using hk3, ?_⟩
    rcases hk4 hklt with h | h
    · left
      simpa using h
    · right
      simpa using h

/-- C7 witness: three games costing 5 each under a deadline of 7 — the
first completes, the second is submitted before the deadline but
abandoned, the third is never submitted; the run completes with a partial
report of exactly the first game. -/
theorem run_deadline_partial_witness :
    (runAnalysis (fun r => some ⟨r.transcript.length, []⟩)
        (fun g => ⟨g.id, []⟩) (fun _ => 5) 7
        (.ok [⟨"a"⟩, ⟨"bb"⟩, ⟨"ccc"⟩]) =
      .ok { Aggregate (evalLoop (fun _ => 5) (fun g => ⟨g.id, []⟩) 7 0
              (([⟨"a"⟩, ⟨"bb"⟩, ⟨"ccc"⟩] : List RawGame).filterMap
                (fun r => some ⟨r.transcript.length, []⟩))).1 with
              skippedGames := 0, isPartial := true }) ∧
    (∀ t ∈ (evalLoop (fun _ => 5) (fun g => ⟨g.id, []⟩) 7 0
        (([⟨"a"⟩, ⟨"bb"⟩, ⟨"ccc"⟩] : List RawGame).filterMap
          (fun r => some ⟨r.transcript.length, []⟩))).2, t < 7) ∧
    (∃ k, k < (([⟨"a"⟩, ⟨"bb"⟩, ⟨"ccc"⟩] : List RawGame).filterMap
        (fun r => some (⟨r.transcript.length, []⟩ : GameRecord))).length ∧
      (evalLoop (fun _ => 5) (fun g => ⟨g.id, []⟩) 7 0
        (([⟨"a"⟩, ⟨"bb"⟩, ⟨"ccc"⟩] : List RawGame).filterMap
          (fun r => some ⟨r.transcript.length, []⟩))).1
        = ((([⟨"a"⟩, ⟨"bb"⟩, ⟨"ccc"⟩] : List RawGame).filterMap
            (fun r => some (⟨r.transcript.length, []⟩ : GameRecord))).take
              k).map (fun g => ⟨g.id, []⟩) ∧
      (((([⟨"a"⟩, ⟨"bb"⟩, ⟨"ccc"⟩] : List RawGame).filterMap
          (fun r => some (⟨r.transcript.length, []⟩ : GameRecord))).take
            k).map (fun _ => 5)).sum ≤ 7 ∧
      (7 ≤ (((([⟨"a"⟩, ⟨"bb"⟩, ⟨"ccc"⟩] : List RawGame).filterMap
          (fun r => some (⟨r.transcript.length, []⟩ : GameRecord))).take
            k).map (fun _ => 5)).sum ∨
        7 < (((([⟨"a"⟩, ⟨"bb"⟩, ⟨"ccc"⟩] : List RawGame).filterMap
          (fun r => some (⟨r.transcript.length, []⟩ : GameRecord))).take
            (k + 1)).map (fun _ => 5)).sum)) :=
  run_deadline_partial (fun r => some ⟨r.transcript.length, []⟩)
    (fun g => ⟨g.id, []⟩) (fun _ => 5) 7 [⟨"a"⟩, ⟨"bb"⟩, ⟨"ccc"⟩]
    (by decide)

/-- `find?` over a list on which `f` is injective, with the comparison
target the image of a member, returns exactly that member. -/
theorem find?_eq_of_mem_inj {α β : Type} [DecidableEq β] (f : α → β) :
    ∀ (l : List α) (m : α), m ∈ l →
      (∀ m₁ ∈ l, ∀ m₂ ∈ l, f m₁ = f m₂ → m₁ = m₂) →
      l.find? (fun x => f x = f m) = some m := by
  intro l
  induction l with
  | nil => intro m hm; cases hm
  | cons a l ih =>
    intro m hm hinj
    by_cases h : f a = f m
    · have : a = m := hinj a (List.mem_cons_self a l) m hm h
      rw [List.find?_cons_of_pos _ (by simp [h])]
      rw [this]
    · have hma : m ≠ a := by
        rintro rfl
        exact h rfl
      have hm' : m ∈ l := by
        rcases List.mem_cons.mp hm with rfl | hm'
        · exact absurd rfl hma
        · exact hm'
      rw [List.find?_cons_of_neg _ (by simp [h])]
      exact ih m hm' fun m₁ h₁ m₂ h₂ =>
        hinj m₁ (List.mem_cons_of_mem a h₁) m₂ (List.mem_cons_of_mem a h₂)

/-- A successful parse from `p` yields a position sequence starting at
`p`. -/
theorem parseFrom_head {Pos Move : Type} [DecidableEq Move]
    (M : ChessModel Pos Move) :
    ∀ (ts : List Move) (p : Pos) (ps : List Pos),
      parseFrom M p ts = some ps → ∃ tail, ps = p :: tail := by
  intro ts p ps hp
  cases ts with
  | nil =>
    rw [parseFrom] at hp
    exact ⟨[], ((Option.some.injEq _ _ ▸ hp) : [p] = ps).symm⟩
  | cons m ms =>
    rw [parseFrom] at hp
    split_ifs at hp with hm
    · cases hrec : parseFrom M (M.applyMove p m) ms with
      | none => rw [hrec] at hp; simp at hp
      | some ps' =>
        rw [hrec] at hp
        simp only [Option.map_some', Option.some.injEq] at hp
        exact ⟨ps', hp.symm⟩

/-- C8: for every legal transcript (one that `Parse` accepts), replaying
the resulting `Position` sequence reconstructs the identical move
sequence, for any chess model in which distinct legal moves from a
position produce distinct positions. -/
theorem parse_replay_roundtrip {Pos Move : Type} [DecidableEq Pos]
    [DecidableEq Move] (M : ChessModel Pos Move)
    (hinj : ∀ (p : Pos), ∀ m₁ ∈ M.legalMoves p, ∀ m₂ ∈ M.legalMoves p,
      M.applyMove p m₁ = M.applyMove p m₂ → m₁ = m₂)
    (transcript : List Move) (positions : List Pos)
    (hp : Parse M transcript = some positions) :
    replaySeq M positions = some transcript := by
  suffices h : ∀ (ts : List Move) (p : Pos) (ps : List Pos),
      parseFrom M p ts = some ps → replaySeq M ps = some ts from
    h transcript M.start positions hp
  intro ts
  induction ts with
  | nil =>
    intro p ps hps
    rw [parseFrom] at hps
    have : [p] = ps := Option.some.injEq _ _ ▸ hps
    subst this
    rfl
  | cons m ms ih =>
    intro p ps hps
    rw [parseFrom] at hps
    split_ifs at hps with hm
    · cases hrec : parseFrom M (M.applyMove p m) ms with
      | none => rw [hrec] at hps; simp at hps
      | some ps' =>
        rw [hrec] at hps
        simp only [Option.map_some', Option.some.injEq] at hps
        subst hps
        obtain ⟨tail, rfl⟩ := parseFrom_head M ms (M.applyMove p m) ps' hrec
        simp only [replaySeq]
        rw [find?_eq_of_mem_inj (M.applyMove p) (M.legalMoves p) m hm
          (hinj p)]
        rw [ih (M.applyMove p m) (M.applyMove p m :: tail) hrec]
        rfl

/-- C8 witness: in the concrete model where a position is the stack of
moves played and every move is legal, parsing the transcript `[1, 2]` and
replaying the resulting position sequence returns `[1, 2]`. -/
theorem parse_replay_roundtrip_witness :
    replaySeq (⟨[], fun _ => [0, 1, 2], fun p m => m :: p⟩ :
        ChessModel (List Nat) Nat) [[], [1], [2, 1]] = some [1, 2] :=
  parse_replay_roundtrip
    (⟨[], fun _ => [0, 1, 2], fun p m => m :: p⟩ : ChessModel (List Nat) Nat)
    (fun _ m₁ _ m₂ _ h => (List.cons.inj h).1) [1, 2] [[], [1], [2, 1]]
    (by decide)

end SkillIssue
